import Mathlib

/-!
Verification of the session admission and ordering layer of the
runtime-multimodal-companion-node server.

The development shallowly embeds the TypeScript source:

* `auth.ts` (src/unnamed/part_000): nonce cache, timestamp-skew check,
  chained HMAC signature, and `verifyIncomingRequest`.
* the server file (src/unnamed/part_001): the wsToken redemption performed
  in the WebSocket upgrade handler, and the connection-registry handlers.
* `message_handler.ts` (src/unnamed/part_002): the audio segmentation state
  machine inside `MessageHandler.handleMessage`, `normalizeAudio`, and the
  per-connection serial task queue (`addToQueue` / `processQueue`).

External primitives that live outside the repository (Node's
`crypto.createHmac('sha256', ...)` and JavaScript's `Date.UTC`) are taken as
explicit function parameters; everything written in the repository itself is
translated directly.  JavaScript numbers used for audio samples and
millisecond durations are modelled as `ℚ`; millisecond epoch timestamps as
`ℤ`.
-/

/-! ### Nonce cache and auth verifier (src/unnamed/part_000) -/

/-- Bytes of an HMAC key / digest / UTF-8 encoded string, each entry < 256. -/
abbrev Bytes := List Nat

/-- `Buffer.from(s, 'utf8')`. -/
def utf8Bytes (s : String) : Bytes := s.toUTF8.toList.map (fun b => b.toNat)

/-- One lowercase hexadecimal digit. -/
def hexDigit (n : Nat) : Char :=
  if n < 10 then Char.ofNat (48 + n) else Char.ofNat (87 + n)

/-- `Buffer.from(bytes).toString('hex')`: two lowercase hex digits per byte. -/
def toHexLower (bs : Bytes) : String :=
  String.mk (bs.foldr (fun b acc => hexDigit (b / 16 % 16) :: hexDigit (b % 16) :: acc) [])

/-- `generateSignatureCSharpCompatible` from auth.ts: start with
`key = "IW1" + secret`, then for each string the HMAC-SHA256 digest of the
string under the current key becomes the next key; the result is the final
key rendered as lowercase hex.  `hmac key msg` stands for Node's
`crypto.createHmac('sha256', key).update(msg).digest()`. -/
def generateSignatureCSharpCompatible (hmac : Bytes → Bytes → Bytes)
    (values : List String) (secret : String) : String :=
  toHexLower (values.foldl (fun key s => hmac key (utf8Bytes s)) (utf8Bytes ("IW1" ++ secret)))

/-- Follows the spec's words for the signature algorithm: `key₀ =
UTF8Bytes("IW1" + apiSecret)`, `keyᵢ = HMAC-SHA256(key = keyᵢ₋₁, message =
UTF8Bytes(valueᵢ))` for the ordered values `[dateTime, host, methodName,
nonce, tailConstant]`, and the expected signature is the lowercase hex
encoding of `key₅`. -/
def expectedSignatureSpec (hmac : Bytes → Bytes → Bytes) (apiSecret : String)
    (dateTime host methodName nonce tailConstant : String) : String :=
  let key0 := utf8Bytes ("IW1" ++ apiSecret)
  let key1 := hmac key0 (utf8Bytes dateTime)
  let key2 := hmac key1 (utf8Bytes host)
  let key3 := hmac key2 (utf8Bytes methodName)
  let key4 := hmac key3 (utf8Bytes nonce)
  let key5 := hmac key4 (utf8Bytes tailConstant)
  toHexLower key5

/-- `NONCE_TTL_MS = 5 * 60 * 1000` (milliseconds). -/
def NONCE_TTL_MS : Int := 5 * 60 * 1000

/-- The in-memory `nonceTimestamps` map, in insertion order. -/
abbrev NonceMap := List (String × Int)

/-- `cleanupExpiredNonces`: delete every entry with `now - ts > NONCE_TTL_MS`. -/
def cleanupExpiredNonces (now : Int) (m : NonceMap) : NonceMap :=
  m.filter (fun e => decide (now - e.2 ≤ NONCE_TTL_MS))

/-- `nonceTimestamps.has(nonce)`. -/
def nonceHas (m : NonceMap) (nonce : String) : Bool :=
  m.any (fun e => decide (e.1 = nonce))

/-- `nonceTimestamps.set(nonce, now)`: update in place when present,
otherwise append (JS `Map` insertion order). -/
def nonceSet (m : NonceMap) (nonce : String) (ts : Int) : NonceMap :=
  if nonceHas m nonce then m.map (fun e => if e.1 = nonce then (nonce, ts) else e)
  else m ++ [(nonce, ts)]

/-- The four mandatory fields of a parsed `IW1-HMAC-SHA256` header. -/
structure ParsedAuthHeader where
  apiKey : String
  dateTime : String
  nonce : String
  signature : String
deriving DecidableEq

/-- Credentials decoded from `INWORLD_API_KEY`. -/
structure Creds where
  apiKey : String
  apiSecret : String
deriving DecidableEq

/-- Interpret a list of decimal digit characters as a number (`Number(...)`). -/
def digitsToNat (cs : List Char) : Nat :=
  cs.foldl (fun a c => a * 10 + (c.toNat - 48)) 0

/-- The regex `^(\d{4})(\d{2})(\d{2})(\d{2})(\d{2})(\d{2})$` of
`isDateTimeSkewAcceptable`: exactly 14 digits, split 4/2/2/2/2/2. -/
def parseDateTime14 (s : String) : Option (Nat × Nat × Nat × Nat × Nat × Nat) :=
  let cs := s.data
  if cs.length = 14 ∧ cs.all (fun c => c.isDigit) then
    some (digitsToNat (cs.take 4), digitsToNat ((cs.drop 4).take 2),
      digitsToNat ((cs.drop 6).take 2), digitsToNat ((cs.drop 8).take 2),
      digitsToNat ((cs.drop 10).take 2), digitsToNat ((cs.drop 12).take 2))
  else none

/-- `isDateTimeSkewAcceptable`: parse the 14-digit UTC stamp, convert with
`Date.UTC(y, mo - 1, d, h, mi, s)` (passed in as `utc`, a JS builtin), and
accept when `|now - dt| ≤ NONCE_TTL_MS`. -/
def isDateTimeSkewAcceptable (utc : Int → Int → Int → Int → Int → Int → Int)
    (now : Int) (dateTime : String) : Bool :=
  match parseDateTime14 dateTime with
  | none => false
  | some (y, mo, d, h, mi, s) =>
      decide (|now - utc (y : Int) ((mo : Int) - 1) (d : Int) (h : Int) (mi : Int) (s : Int)| ≤ NONCE_TTL_MS)

/-- Protocol constant `METHOD` used in `verifyIncomingRequest`. -/
def METHOD : String := "ai.inworld.engine.v1.SessionTokens/GenerateSessionToken"

/-- Protocol constant `TAIL` used in `verifyIncomingRequest`. -/
def TAIL : String := "iw1_request"

/-- Result record of `verifyIncomingRequest` (`{ ok, error? }`). -/
structure VerifyResult where
  ok : Bool
  error : Option String
deriving DecidableEq

/-- `verifyIncomingRequest` from auth.ts, from the point where the header has
been extracted: check parse, configured credentials, ApiKey, timestamp skew,
then clean the nonce cache, check replay, recompute the chained signature,
and finally commit the nonce.  Returns the result together with the new
state of the module-level `nonceTimestamps` map. -/
def verifyIncomingRequest (hmac : Bytes → Bytes → Bytes)
    (utc : Int → Int → Int → Int → Int → Int → Int)
    (creds : Option Creds) (host : String)
    (parsed : Option ParsedAuthHeader) (now : Int) (cache : NonceMap) :
    VerifyResult × NonceMap :=
  match parsed with
  | none => (⟨false, some "Missing or invalid Authorization"⟩, cache)
  | some p =>
    match creds with
    | none => (⟨false, some "Server not configured for client auth (INWORLD_API_KEY missing/invalid)"⟩, cache)
    | some c =>
      if p.apiKey ≠ c.apiKey then (⟨false, some "ApiKey mismatch"⟩, cache)
      else if isDateTimeSkewAcceptable utc now p.dateTime = false then
        (⟨false, some "DateTime skew too large"⟩, cache)
      else
        let cache1 := cleanupExpiredNonces now cache
        if nonceHas cache1 p.nonce then (⟨false, some "Nonce replayed"⟩, cache1)
        else
          let expected := generateSignatureCSharpCompatible hmac
            [p.dateTime, host, METHOD, p.nonce, TAIL] c.apiSecret
          if expected ≠ p.signature then (⟨false, some "Signature mismatch"⟩, cache1)
          else (⟨true, none⟩, nonceSet cache1 p.nonce now)

/-! ### wsToken redemption and connection registry (src/unnamed/part_001) -/

/-- The `wsTokens` object: sessionKey ↦ `{ token, expiresAt }`. -/
abbrev TokenMap := String → Option (String × Int)

/-- `WS_TOKEN_TTL_MS = 5 * 60 * 1000`. -/
def WS_TOKEN_TTL_MS : Int := 5 * 60 * 1000

/-- `delete wsTokens[key]`. -/
def tokenErase (m : TokenMap) (key : String) : TokenMap :=
  fun k => if k = key then none else m k

/-- `wsTokens[sessionKey] = { token, expiresAt: Date.now() + WS_TOKEN_TTL_MS }`
as performed by `/create-session`. -/
def tokenIssue (m : TokenMap) (key token : String) (now : Int) : TokenMap :=
  fun k => if k = key then some (token, now + WS_TOKEN_TTL_MS) else m k

/-- The wsToken check inside `server.on('upgrade')`: look up
`wsTokens[key]`; accept when a record exists, `record.token === token` and
`record.expiresAt >= Date.now()`; on acceptance delete the record
(one-time use).  Returns `allowed` together with the new `wsTokens`. -/
def redeemWsToken (m : TokenMap) (key token : String) (now : Int) :
    Bool × TokenMap :=
  match m key with
  | some (t, exp) => if t = token ∧ exp ≥ now then (true, tokenErase m key) else (false, m)
  | none => (false, m)

/-- The `connections` object restricted to what the handlers touch:
sessionKey ↦ transport handle (identified by a number). -/
abbrev ConnMap := String → Option Nat

/-- The `webSocket.on('connection')` body's registry effect:
`if (!connections[key]) connections[key] = {}; connections[key].ws = ws`. -/
def connBind (m : ConnMap) (key : String) (ws : Nat) : ConnMap :=
  fun k => if k = key then some ws else m k

/-- The per-socket close handler: `if (connections[key]) delete
connections[key]` — keyed by the session key captured at connection time,
with no comparison against the closing transport. -/
def connCloseHandler (m : ConnMap) (key : String) : ConnMap :=
  match m key with
  | some _ => fun k => if k = key then none else m k
  | none => m

/-! ### Message handler: segmenter and task queue (src/unnamed/part_002) -/

/-- `INPUT_SAMPLE_RATE = 16000` (constants.ts). -/
def INPUT_SAMPLE_RATE : ℚ := 16000

/-- `FRAME_PER_BUFFER = 1024` (constants.ts). -/
def FRAME_PER_BUFFER : Nat := 1024

/-- `PAUSE_DURATION_THRESHOLD_MS = 650` (constants.ts). -/
def PAUSE_DURATION_THRESHOLD_MS : ℚ := 650

/-- `MIN_SPEECH_DURATION_MS = 200` (constants.ts). -/
def MIN_SPEECH_DURATION_MS : ℚ := 200

/-- A task pushed onto `processingQueue`, tagged by the dispatching branch of
`handleMessage`; the audio task carries the normalized segment handed to
`executeGraph`. -/
inductive QTask where
  | textTask (text : String)
  | imageChatTask (text image : String) (voiceId : Option String)
  | audioTask (data : List ℚ)
deriving DecidableEq

/-- The mutable fields of `MessageHandler` that the segmenter and the
dispatcher touch; `processingQueue` holds the not-yet-started tasks in
arrival order. -/
structure HandlerState where
  pauseDuration : ℚ
  isCapturingSpeech : Bool
  speechBuffer : List ℚ
  processingQueue : List QTask
deriving DecidableEq

/-- `normalizeAudio`: find the maximum absolute sample, return the buffer
unchanged when it is zero, otherwise divide every sample by it. -/
def maxAbsVal (l : List ℚ) : ℚ := l.foldl (fun m x => max m |x|) 0

/-- `MessageHandler.normalizeAudio`. -/
def normalizeAudio (audioBuffer : List ℚ) : List ℚ :=
  let maxVal := maxAbsVal audioBuffer
  if maxVal = 0 then audioBuffer else audioBuffer.map (fun x => x / maxVal)

/-- Lines 165–196 of the handler (the part after the `FRAME_PER_BUFFER`
guard and the VAD call): the segmentation state machine.  `vadResult = -1`
means no voice.  Emission (`processCapturedSpeech`) normalizes the buffer,
clears it and enqueues the audio task. -/
def audioStep (st : HandlerState) (data : List ℚ) (vadResult : Int) : HandlerState :=
  if st.isCapturingSpeech then
    let buf := st.speechBuffer ++ data
    if vadResult = -1 then
      let pause := st.pauseDuration + (data.length : ℚ) * 2000 / INPUT_SAMPLE_RATE
      if pause > PAUSE_DURATION_THRESHOLD_MS then
        let speechDuration := (buf.length : ℚ) * 2000 / INPUT_SAMPLE_RATE
        if speechDuration > MIN_SPEECH_DURATION_MS then
          { pauseDuration := pause, isCapturingSpeech := false, speechBuffer := [],
            processingQueue := st.processingQueue ++ [QTask.audioTask (normalizeAudio buf)] }
        else
          { st with isCapturingSpeech := false, pauseDuration := pause, speechBuffer := buf }
      else
        { st with pauseDuration := pause, speechBuffer := buf }
    else
      { st with pauseDuration := 0, speechBuffer := buf }
  else
    if vadResult = -1 then st
    else { st with isCapturingSpeech := true, pauseDuration := 0,
                   speechBuffer := st.speechBuffer ++ data }

/-- An inbound WebSocket message as consumed by `handleMessage`: the string
type tag and the payload fields the handler reads.  `audio` is the
`message.audio` array of frame objects, each flattened by `Object.values`. -/
structure InMessage where
  type : String
  text : String
  image : String
  voiceId : Option String
  audio : List (List ℚ)
deriving DecidableEq

/-- `MessageHandler.handleMessage`: dispatch on `message.type`.  `text` and
`imageChat` enqueue a task; `audio` flattens the frames, drops the event
when it holds fewer than `FRAME_PER_BUFFER` samples, and otherwise runs the
VAD classifier and the segmentation step; `audioSessionEnd` resets the
pause and capture flags and flushes a non-empty buffer; any other tag falls
through the `switch` with no effect.  Sends to the client happen only
inside queued tasks, so the enqueued-task list carries every observable
output of a dispatch. -/
def handleMessage (vad : List ℚ → Int) (st : HandlerState) (m : InMessage) :
    HandlerState :=
  if m.type = "text" then
    { st with processingQueue := st.processingQueue ++ [QTask.textTask m.text] }
  else if m.type = "imageChat" then
    { st with
        processingQueue := st.processingQueue ++ [QTask.imageChatTask m.text m.image m.voiceId] }
  else if m.type = "audio" then
    let audioBuffer := m.audio.flatten
    if FRAME_PER_BUFFER ≤ audioBuffer.length then
      audioStep st audioBuffer (vad audioBuffer)
    else st
  else if m.type = "audioSessionEnd" then
    let st1 := { st with pauseDuration := 0, isCapturingSpeech := false }
    if 0 < st1.speechBuffer.length then
      { st1 with
          speechBuffer := [],
          processingQueue := st1.processingQueue ++ [QTask.audioTask (normalizeAudio st1.speechBuffer)] }
    else st1
  else st

/-- Feed a list of (samples, vadResult) batches through the segmenter. -/
def feedAll (st : HandlerState) (xs : List (List ℚ × Int)) : HandlerState :=
  xs.foldl (fun s x => audioStep s x.1 x.2) st

/-- The samples of a batch list, in order. -/
def joinBatches (xs : List (List ℚ × Int)) : List ℚ := (xs.map Prod.fst).flatten

/-! ### Serial task queue (`addToQueue` / `processQueue`)

The queue runs on Node's single-threaded event loop: `addToQueue` pushes and
synchronously calls `processQueue`, which returns at once when a drain is
already in progress and otherwise shifts tasks one at a time, suspending only
at `await task()`.  The model is a labelled transition system whose two
external stimuli are an `addToQueue` call and the settlement (fulfilment or
rejection) of the currently awaited task; everything between two suspension
points is a single atomic step. -/

/-- Queue bookkeeping of one `MessageHandler`: the pending `processingQueue`,
the `isProcessing` flag, and the task currently being awaited (if any);
tasks are identified by numbers. -/
structure QState where
  queue : List Nat
  isProcessing : Bool
  current : Option Nat
deriving DecidableEq

/-- External stimuli: `enq id` is an `addToQueue` call, `complete ok` is the
settlement of the awaited task (`ok = false` for a rejection, which the
drain loop catches). -/
inductive QAct where
  | enq (id : Nat)
  | complete (ok : Bool)
deriving DecidableEq

/-- Observable events: a task was appended, started, or settled. -/
inductive QEv where
  | enqueued (id : Nat)
  | started (id : Nat)
  | finished (id : Nat) (ok : Bool)
deriving DecidableEq

/-- Initial state of a fresh `MessageHandler`. -/
def qinit : QState := ⟨[], false, none⟩

/-- One atomic step.  `enq`: push, then `processQueue` either bails out
(`isProcessing`) or marks the drain active and starts the head task.
`complete`: the `await` resumes inside the `try/catch` (so a rejection is
swallowed) and the `while` loop either starts the next task or clears
`isProcessing`. -/
def qstep (s : QState) : QAct → QState × List QEv
  | .enq id =>
    let q := s.queue ++ [id]
    if s.isProcessing then ({ s with queue := q }, [.enqueued id])
    else
      match q with
      | [] => (⟨[], false, none⟩, [.enqueued id])
      | t :: rest => (⟨rest, true, some t⟩, [.enqueued id, .started t])
  | .complete ok =>
    match s.current with
    | none => (s, [])
    | some t =>
      match s.queue with
      | [] => (⟨[], false, none⟩, [.finished t ok])
      | n :: rest => (⟨rest, s.isProcessing, some n⟩, [.finished t ok, .started n])

/-- Run a sequence of stimuli, collecting the event trace. -/
def qrun (s : QState) : List QAct → QState × List QEv
  | [] => (s, [])
  | a :: rest =>
    let p := qstep s a
    let r := qrun p.1 rest
    (r.1, p.2 ++ r.2)

/-- Ids of `started` events, in order. -/
def startsOf (tr : List QEv) : List Nat :=
  tr.filterMap (fun e => match e with | .started i => some i | _ => none)

/-- Ids of `enqueued` events, in order. -/
def enqsOf (tr : List QEv) : List Nat :=
  tr.filterMap (fun e => match e with | .enqueued i => some i | _ => none)

/-- Scan of a trace with the number of tasks in progress: a task may start
only when none is running and settle only when one is — i.e. the trace is a
serial, non-overlapping schedule. -/
def serialOk (r : Nat) : List QEv → Bool
  | [] => true
  | e :: rest =>
    match e with
    | .started _ => decide (r = 0) && serialOk 1 rest
    | .finished _ _ => decide (r = 1) && serialOk 0 rest
    | .enqueued _ => serialOk r rest

/-- Replace every settlement outcome by success, keeping everything else. -/
def forceOk : QAct → QAct
  | .complete _ => .complete true
  | a => a

/-- 1 when a task is being awaited, else 0. -/
def curNat (s : QState) : Nat := if s.current.isSome then 1 else 0

/-! ### Concrete instances used by witnesses and counterexamples -/

/-- A degenerate stand-in for the HMAC primitive, for closed evaluations
whose outcome does not depend on the digest function. -/
def hmacNull : Bytes → Bytes → Bytes := fun _ _ => []

/-- A degenerate stand-in for `Date.UTC`, mapping every calendar date to
epoch 0, for closed evaluations. -/
def utcZero : Int → Int → Int → Int → Int → Int → Int := fun _ _ _ _ _ _ => 0

/-- Concrete configured credentials. -/
def credsA : Creds := ⟨"key-a", "secret-a"⟩

/-- A header that passes every check of `verifyIncomingRequest` against
`credsA` under `hmacNull`/`utcZero` at time 0 (its signature is the hex of
the empty digest). -/
def pOkC1 : ParsedAuthHeader := ⟨"key-a", "20240101000000", "nonce-1", ""⟩

/-- A header replaying `nonce-1` with a different signature. -/
def pReplayC1 : ParsedAuthHeader := ⟨"key-a", "20240101000000", "nonce-1", "x"⟩

/-- A header whose ApiKey does not match `credsA`. -/
def pMismatchC8 : ParsedAuthHeader := ⟨"other-key", "20240101000000", "nonce-2", "s"⟩

/-- A header with a matching ApiKey, used for the skew theorem's witness. -/
def pSkewC8 : ParsedAuthHeader := ⟨"key-a", "20240101000000", "nonce-3", "orig"⟩

/-- A one-entry `wsTokens` map: session `"k"`, token `"t"`, expiry 100. -/
def tokenMapK : TokenMap := fun k => if k = "k" then some ("t", 100) else none

/-- An empty connection registry. -/
def connEmpty : ConnMap := fun _ => none

/-- A VAD stub reporting voice activity on every batch. -/
def vadVoice : List ℚ → Int := fun _ => 0

/-- A VAD stub reporting no voice on every batch. -/
def vadZero : List ℚ → Int := fun _ => 0

/-- A capturing state whose buffer (100 samples) is far below the minimum
speech duration, with the pause accumulator already at 600 ms. -/
def stShortC3 : HandlerState := ⟨600, true, List.replicate 100 (1:ℚ), []⟩

/-- A capturing state with 200 buffered samples and a queued text task. -/
def stShortC3w : HandlerState := ⟨600, true, List.replicate 200 (1:ℚ), [QTask.textTask "t"]⟩

/-- A 1024-sample silent batch. -/
def batchPause : List ℚ := List.replicate 1024 0

/-- An inbound audio event carrying 600 samples — below `FRAME_PER_BUFFER`. -/
def audioSmall : InMessage := ⟨"audio", "", "", none, [List.replicate 600 (1:ℚ)]⟩

/-- An inbound message with a tag outside the four handled event types. -/
def msgBogus : InMessage := ⟨"bogus", "", "", none, []⟩

/-- The idle handler state with empty buffer and queue. -/
def stClean : HandlerState := ⟨0, false, [], []⟩

/-- One voiced batch of 1601 samples: duration 1601/8 ms > 200 ms. -/
def vsWitness : List (List ℚ × Int) := [(List.replicate 1601 (1:ℚ), 0)]

/-- One silent batch of 5201 samples: pause 5201/8 ms > 650 ms. -/
def psWitness : List (List ℚ × Int) := [(List.replicate 5201 (0:ℚ), -1)]

/-! ## Helper lemmas -/

theorem tokenErase_self (m : TokenMap) (key : String) : tokenErase m key key = none := by
  simp [tokenErase]

theorem nonceHas_cleanup_append (now₂ now : Int) (l : NonceMap) (n : String)
    (h : now₂ - now ≤ NONCE_TTL_MS) :
    nonceHas (cleanupExpiredNonces now₂ (l ++ [(n, now)])) n = true := by
  simp only [nonceHas, cleanupExpiredNonces, List.any_eq_true]
  exact ⟨(n, now), List.mem_filter.mpr ⟨List.mem_append_right _ (List.mem_singleton.mpr rfl),
    by simpa using h⟩, by simp⟩

/-! ## C4 — chained signature -/

/-- C4: for every HMAC primitive, apiSecret and list of five input strings
`[dateTime, host, methodName, nonce, tailConstant]`, the signature computed
by `generateSignatureCSharpCompatible` (the verifier's expected signature)
equals the lowercase hex encoding of `key₅` of the chained MAC starting from
`key₀ = UTF8Bytes("IW1" + apiSecret)` — a chain of five keyed digests, not
a single HMAC over a concatenation. -/
theorem generateSignature_eq_chained_spec (hmac : Bytes → Bytes → Bytes)
    (apiSecret dateTime host methodName nonce tailConstant : String) :
    generateSignatureCSharpCompatible hmac
        [dateTime, host, methodName, nonce, tailConstant] apiSecret
      = expectedSignatureSpec hmac apiSecret dateTime host methodName nonce tailConstant := rfl

/-! ## C2 — wsToken redemption -/

/-- C2 (amended): redemption during the WebSocket upgrade succeeds exactly
when a record exists for the session key, the presented token equals the
stored token, and `now ≤ expiresAt` (the code accepts `expiresAt ≥
Date.now()`, so redemption at `now = expiresAt` still succeeds); on success
the record is deleted, so any immediate re-redemption for the same key
returns false; a failed redemption leaves the map unchanged. -/
theorem redeemWsToken_single_use (m : TokenMap) (key token : String) (now : Int) :
    ((redeemWsToken m key token now).1 = true ↔
      ∃ exp, m key = some (token, exp) ∧ now ≤ exp) ∧
    ((redeemWsToken m key token now).1 = true →
      (redeemWsToken m key token now).2 = tokenErase m key ∧
      ∀ token₂ now₂, (redeemWsToken (redeemWsToken m key token now).2 key token₂ now₂).1 = false) ∧
    ((redeemWsToken m key token now).1 = false → (redeemWsToken m key token now).2 = m) := by
  rcases hm : m key with _ | ⟨t, exp⟩
  · refine ⟨?_, ?_, ?_⟩ <;> simp [redeemWsToken, hm]
  · by_cases hc : t = token ∧ exp ≥ now
    · refine ⟨?_, ?_, ?_⟩
      · simp only [redeemWsToken, hm, if_pos hc]
        constructor
        · intro _
          exact ⟨exp, by rw [hc.1], hc.2⟩
        · intro _
          trivial
      · intro _
        refine ⟨by simp [redeemWsToken, hm, hc], ?_⟩
        intro token₂ now₂
        simp [redeemWsToken, hm, hc, tokenErase_self]
      · intro hfalse
        simp [redeemWsToken, hm, hc] at hfalse
    · refine ⟨?_, ?_, ?_⟩
      · simp only [redeemWsToken, hm, if_neg hc]
        constructor
        · intro h
          exact absurd h (by simp)
        · rintro ⟨exp', hsome, hle⟩
          injection hsome with h1
          injection h1 with ht he
          exact absurd ⟨ht, he ▸ hle⟩ hc
      · intro htrue
        simp [redeemWsToken, hm, hc] at htrue
      · intro _
        simp [redeemWsToken, hm, hc]

/-- C2 counterexample: with a stored record `("t", expiresAt = 100)`,
redemption at `now = 100` succeeds even though `now < expiresAt` fails —
the code's check is `expiresAt >= now`, not strict. -/
theorem redeemWsToken_boundary_counterexample :
    (redeemWsToken tokenMapK "k" "t" 100).1 = true ∧ ¬ ((100:Int) < 100) := by
  constructor
  · rfl
  · decide

/-- C2 witness: issue/redeem/redeem-again on a concrete map. -/
theorem redeemWsToken_single_use_witness :
    (redeemWsToken tokenMapK "k" "t" 50).1 = true ∧
    (redeemWsToken (redeemWsToken tokenMapK "k" "t" 50).2 "k" "t" 50).1 = false := by
  obtain ⟨h1, h2, _⟩ := redeemWsToken_single_use tokenMapK "k" "t" 50
  have ht : (redeemWsToken tokenMapK "k" "t" 50).1 = true :=
    h1.mpr ⟨100, rfl, by decide⟩
  exact ⟨ht, (h2 ht).2 "t" 50⟩

/-! ## C9 — close handler deletes by session key -/

/-- C9: after a session key is bound to an old transport and then rebound to
a newer one, the close handler of either transport (which captures only the
session key and never compares transport identity) deletes the registry
entry for that key — removing the currently active binding — while entries
for every other key are untouched. -/
theorem connClose_deletes_superseded (m : ConnMap) (key : String) (w1 w2 : Nat) :
    connBind (connBind m key w1) key w2 key = some w2 ∧
    connCloseHandler (connBind (connBind m key w1) key w2) key key = none ∧
    ∀ k, ¬ k = key → connCloseHandler (connBind (connBind m key w1) key w2) key k = m k := by
  refine ⟨by simp [connBind], ?_, ?_⟩
  · simp [connBind, connCloseHandler]
  · intro k hk
    simp [connBind, connCloseHandler, hk]

/-- C9 witness: concrete registry with key `"a"` rebound from transport 0 to
transport 1; the close of the superseded transport clears the binding. -/
theorem connClose_deletes_superseded_witness :
    connCloseHandler (connBind (connBind connEmpty "a" 0) "a" 1) "a" "a" = none ∧
    connCloseHandler (connBind (connBind connEmpty "a" 0) "a" 1) "a" "b" = none := by
  obtain ⟨_, h2, h3⟩ := connClose_deletes_superseded connEmpty "a" 0 1
  exact ⟨h2, (h3 "b" (by decide)).trans rfl⟩

/-! ## C10 — unknown message tags are ignored -/

/-- C10: a message whose type tag is none of `text`, `imageChat`, `audio`,
`audioSessionEnd` falls through the `switch` of `handleMessage`: the
segmenter fields (`isCapturingSpeech`, `pauseDuration`, `speechBuffer`) and
the task queue are all unchanged and no task — hence no outbound send — is
produced. -/
theorem handleMessage_unknown_tag (vad : List ℚ → Int) (st : HandlerState) (m : InMessage)
    (h1 : ¬ m.type = "text") (h2 : ¬ m.type = "imageChat")
    (h3 : ¬ m.type = "audio") (h4 : ¬ m.type = "audioSessionEnd") :
    handleMessage vad st m = st := by
  simp [handleMessage, h1, h2, h3, h4]

/-- C10 witness: a concrete `bogus`-tagged message leaves the clean state
unchanged. -/
theorem handleMessage_unknown_tag_witness :
    handleMessage vadZero stClean msgBogus = stClean :=
  handleMessage_unknown_tag vadZero stClean msgBogus
    (by decide) (by decide) (by decide) (by decide)

/-! ## C1 — nonce accepted once, committed last -/

/-- C1 (amended): with configured credentials, matching ApiKey, acceptable
timestamp skew, a correct signature, and a nonce absent from the cleaned
cache, `verifyIncomingRequest` returns ok and appends the nonce (the commit
is the last step); a second call presenting the same nonce within the
replay window returns the `Nonce replayed` failure; and a call that returns
any failure never adds a nonce — its only possible effect on the cache is
the eviction of records older than the replay window performed by
`cleanupExpiredNonces` (so the cache is either unchanged or exactly the
cleaned cache, not always unchanged as originally claimed). -/
theorem verify_nonce_accepted_once (hmac : Bytes → Bytes → Bytes)
    (utc : Int → Int → Int → Int → Int → Int → Int)
    (c : Creds) (host : String) (p : ParsedAuthHeader) (now : Int) (cache : NonceMap)
    (hkey : p.apiKey = c.apiKey)
    (hskew : isDateTimeSkewAcceptable utc now p.dateTime = true)
    (hfresh : nonceHas (cleanupExpiredNonces now cache) p.nonce = false)
    (hsig : p.signature = generateSignatureCSharpCompatible hmac
      [p.dateTime, host, METHOD, p.nonce, TAIL] c.apiSecret) :
    verifyIncomingRequest hmac utc (some c) host (some p) now cache
      = (⟨true, none⟩, cleanupExpiredNonces now cache ++ [(p.nonce, now)]) ∧
    (∀ (hmac₂ : Bytes → Bytes → Bytes) (host₂ : String) (p₂ : ParsedAuthHeader) (now₂ : Int),
      p₂.nonce = p.nonce → p₂.apiKey = c.apiKey →
      isDateTimeSkewAcceptable utc now₂ p₂.dateTime = true →
      now₂ - now ≤ NONCE_TTL_MS →
      (verifyIncomingRequest hmac₂ utc (some c) host₂ (some p₂) now₂
          (cleanupExpiredNonces now cache ++ [(p.nonce, now)])).1
        = ⟨false, some "Nonce replayed"⟩) ∧
    (∀ (hmac' : Bytes → Bytes → Bytes) (utc' : Int → Int → Int → Int → Int → Int → Int)
       (creds' : Option Creds) (host' : String) (parsed' : Option ParsedAuthHeader)
       (now' : Int) (cache' : NonceMap),
      (verifyIncomingRequest hmac' utc' creds' host' parsed' now' cache').1.ok = false →
      (verifyIncomingRequest hmac' utc' creds' host' parsed' now' cache').2 = cache' ∨
      (verifyIncomingRequest hmac' utc' creds' host' parsed' now' cache').2
        = cleanupExpiredNonces now' cache') := by
  refine ⟨?_, ?_, ?_⟩
  · simp [verifyIncomingRequest, hkey, hskew, hfresh, hsig.symm, nonceSet]
  · intro hmac₂ host₂ p₂ now₂ hn hk hs hwin
    have hhas : nonceHas (cleanupExpiredNonces now₂
        (cleanupExpiredNonces now cache ++ [(p.nonce, now)])) p₂.nonce = true := by
      rw [hn]
      exact nonceHas_cleanup_append now₂ now _ p.nonce hwin
    simp [verifyIncomingRequest, hk, hs, hhas]
  · intro hmac' utc' creds' host' parsed' now' cache' hfail
    rcases parsed' with _ | p'
    · exact Or.inl rfl
    rcases creds' with _ | c'
    · exact Or.inl rfl
    by_cases h1 : p'.apiKey ≠ c'.apiKey
    · simp [verifyIncomingRequest, h1]
    by_cases h2 : isDateTimeSkewAcceptable utc' now' p'.dateTime = false
    · simp [verifyIncomingRequest, h1, h2]
    by_cases h3 : nonceHas (cleanupExpiredNonces now' cache') p'.nonce = true
    · simp [verifyIncomingRequest, h1, h2, h3]
    by_cases h4 : generateSignatureCSharpCompatible hmac'
        [p'.dateTime, host', METHOD, p'.nonce, TAIL] c'.apiSecret ≠ p'.signature
    · simp [verifyIncomingRequest, h1, h2, h3, h4]
    · exfalso
      simp [verifyIncomingRequest, h1, h2, h3, h4] at hfail

/-- C1 counterexample: a call that fails with `Nonce replayed` nevertheless
changes the nonce cache (the expired record `("old", -400000)` is evicted
by the cleanup that runs before the replay check), refuting "a verify call
that returns any failure leaves the NonceCache unchanged". -/
theorem verify_failure_changes_cache_counterexample :
    verifyIncomingRequest hmacNull utcZero (some credsA) "host" (some pReplayC1) 0
        [("old", -400000), ("nonce-1", -100000)]
      = (⟨false, some "Nonce replayed"⟩, [("nonce-1", -100000)]) ∧
    ¬ ([(("nonce-1" : String), (-100000 : Int))]
        = [("old", -400000), ("nonce-1", -100000)]) := by
  constructor
  · rfl
  · decide

/-- C1 witness: a concrete fresh call succeeds and commits the nonce; the
immediate replay fails. -/
theorem verify_nonce_accepted_once_witness :
    verifyIncomingRequest hmacNull utcZero (some credsA) "host" (some pOkC1) 0 []
      = (⟨true, none⟩, [(("nonce-1" : String), (0 : Int))]) ∧
    (verifyIncomingRequest hmacNull utcZero (some credsA) "host" (some pOkC1) 0
        [(("nonce-1" : String), (0 : Int))]).1 = ⟨false, some "Nonce replayed"⟩ := by
  obtain ⟨h1, h2, _⟩ := verify_nonce_accepted_once hmacNull utcZero credsA "host" pOkC1 0 []
    (by decide) (by decide) (by decide) (by decide)
  refine ⟨by simpa using h1, ?_⟩
  simpa using h2 hmacNull "host" pOkC1 0 rfl (by decide) (by decide) (by decide)

/-! ## C8 — timestamp skew rejection -/

/-- C8 (amended): provided the preceding checks pass (header parsed,
credentials configured, ApiKey matching), a DateTime whose UTC
interpretation differs from the current time by more than the replay
window makes `verifyIncomingRequest` return the `DateTime skew too large`
failure with the cache untouched, for every supplied signature and every
HMAC primitive — the signature is never consulted.  (The original
unconditional claim fails because the ApiKey comparison runs first; see
the counterexample.) -/
theorem verify_skew_rejects (utc : Int → Int → Int → Int → Int → Int → Int)
    (c : Creds) (host : String) (p : ParsedAuthHeader) (now : Int) (cache : NonceMap)
    (y mo d h mi s : Nat)
    (hkey : p.apiKey = c.apiKey)
    (hparse : parseDateTime14 p.dateTime = some (y, mo, d, h, mi, s))
    (hskew : |now - utc (y : Int) ((mo : Int) - 1) (d : Int) (h : Int) (mi : Int) (s : Int)|
      > NONCE_TTL_MS) :
    ∀ (sig : String) (hmac : Bytes → Bytes → Bytes),
      verifyIncomingRequest hmac utc (some c) host
          (some ⟨p.apiKey, p.dateTime, p.nonce, sig⟩) now cache
        = (⟨false, some "DateTime skew too large"⟩, cache) := by
  intro sig hmac
  have hbad : isDateTimeSkewAcceptable utc now p.dateTime = false := by
    simp [isDateTimeSkewAcceptable, hparse, not_le.mpr hskew]
  simp [verifyIncomingRequest, hkey, hbad]

/-- C8 counterexample: an authentication value whose DateTime differs from
now by far more than the replay window, but whose ApiKey does not match:
`verifyIncomingRequest` returns `ApiKey mismatch`, not the SkewTooLarge
failure, so the unconditional claim is false. -/
theorem verify_skew_preempted_counterexample :
    parseDateTime14 "20240101000000" = some (2024, 1, 1, 0, 0, 0) ∧
    |(1000000000 : Int) - utcZero 2024 0 1 0 0 0| > NONCE_TTL_MS ∧
    (verifyIncomingRequest hmacNull utcZero (some credsA) "host" (some pMismatchC8)
        1000000000 []).1 = ⟨false, some "ApiKey mismatch"⟩ := by
  refine ⟨by decide, by decide, rfl⟩

/-- C8 witness: a matching-ApiKey header with a hugely skewed timestamp is
rejected as skew for an arbitrary replaced signature. -/
theorem verify_skew_rejects_witness :
    verifyIncomingRequest hmacNull utcZero (some credsA) "host"
        (some ⟨"key-a", "20240101000000", "nonce-3", "zz"⟩) 1000000000 []
      = (⟨false, some "DateTime skew too large"⟩, []) :=
  verify_skew_rejects utcZero credsA "host" pSkewC8 1000000000 [] 2024 1 1 0 0 0
    (by decide) (by decide) (by decide) "zz" hmacNull

/-! ## C3 — short speech on pause timeout -/

/-- C3 (amended): in the Capturing state, when the accumulated pause
exceeds the threshold while the buffered duration is at or below the
minimum speech duration, the segmenter emits no segment (the queue is
unchanged) and the state returns to Idle — but the speech buffer is
retained, not emptied: the buffered samples (including the final pause
batch) stay in `speechBuffer` and are carried into whatever is captured or
flushed next. -/
theorem audioStep_short_speech_retains_buffer (st : HandlerState) (data : List ℚ)
    (hcap : st.isCapturingSpeech = true)
    (hpause : st.pauseDuration + (data.length : ℚ) * 2000 / INPUT_SAMPLE_RATE
      > PAUSE_DURATION_THRESHOLD_MS)
    (hshort : (((st.speechBuffer ++ data).length : ℚ)) * 2000 / INPUT_SAMPLE_RATE
      ≤ MIN_SPEECH_DURATION_MS) :
    audioStep st data (-1) =
      { st with
          isCapturingSpeech := false,
          pauseDuration := st.pauseDuration + (data.length : ℚ) * 2000 / INPUT_SAMPLE_RATE,
          speechBuffer := st.speechBuffer ++ data } := by
  simp [audioStep, hcap, hpause, not_lt.mpr hshort]
  simp only [List.length_append, Nat.cast_add] at hshort
  linarith

/-- C3 counterexample: a concrete Capturing history (100 buffered samples,
pause accumulator at 600 ms) hit by a 1024-sample silent batch: the pause
threshold is exceeded, the buffered duration (140.5 ms) is below the 200 ms
minimum, no segment is emitted and the state returns to Idle — yet the
speech buffer is NOT emptied, refuting "the speech buffer is discarded
(emptied)". -/
theorem audioStep_short_speech_buffer_not_discarded :
    stShortC3.pauseDuration + ((batchPause.length : ℚ)) * 2000 / INPUT_SAMPLE_RATE
      > PAUSE_DURATION_THRESHOLD_MS ∧
    (((stShortC3.speechBuffer ++ batchPause).length : ℚ)) * 2000 / INPUT_SAMPLE_RATE
      ≤ MIN_SPEECH_DURATION_MS ∧
    (audioStep stShortC3 batchPause (-1)).isCapturingSpeech = false ∧
    (audioStep stShortC3 batchPause (-1)).processingQueue = [] ∧
    ¬ (audioStep stShortC3 batchPause (-1)).speechBuffer = [] := by
  refine ⟨?_, ?_, ?_, ?_, ?_⟩ <;>
    norm_num [audioStep, stShortC3, batchPause, INPUT_SAMPLE_RATE,
      PAUSE_DURATION_THRESHOLD_MS, MIN_SPEECH_DURATION_MS]

/-- C3 witness: the amended theorem at a concrete state (200 buffered
samples, one queued task). -/
theorem audioStep_short_speech_retains_buffer_witness :
    audioStep stShortC3w batchPause (-1)
      = ⟨728, false, List.replicate 200 (1:ℚ) ++ List.replicate 1024 0,
          [QTask.textTask "t"]⟩ := by
  have h := audioStep_short_speech_retains_buffer stShortC3w batchPause rfl
    (by norm_num [stShortC3w, batchPause, INPUT_SAMPLE_RATE, PAUSE_DURATION_THRESHOLD_MS])
    (by norm_num [stShortC3w, batchPause, INPUT_SAMPLE_RATE, MIN_SPEECH_DURATION_MS])
  rw [h]
  norm_num [stShortC3w, batchPause, INPUT_SAMPLE_RATE]

/-! ## C6 — per-event batch threshold -/

/-- C6 (amended): an inbound audio event's samples reach the VAD classifier
and the segmenter only when that single event carries at least
`FRAME_PER_BUFFER` samples, in which case the classified batch is exactly
the event's own flattened samples; an event with fewer samples is discarded
entirely — the handler state is unchanged, so sub-threshold samples are
lost rather than accumulated into a later batch (the `audioBuffer` is a
local of `handleMessage`, rebuilt per event). -/
theorem handleMessage_audio_event_threshold (vad : List ℚ → Int) :
    (∀ (st : HandlerState) (msgs : List InMessage),
      (∀ m ∈ msgs, m.type = "audio" ∧ m.audio.flatten.length < FRAME_PER_BUFFER) →
      msgs.foldl (handleMessage vad) st = st) ∧
    (∀ (st : HandlerState) (m : InMessage),
      m.type = "audio" → FRAME_PER_BUFFER ≤ m.audio.flatten.length →
      handleMessage vad st m = audioStep st m.audio.flatten (vad m.audio.flatten)) := by
  constructor
  · intro st msgs h
    induction msgs generalizing st with
    | nil => rfl
    | cons m rest ih =>
      obtain ⟨hty, hlen⟩ := h m (List.mem_cons_self m rest)
      have hdrop : handleMessage vad st m = st := by
        have hlen' : (List.map List.length m.audio).sum < FRAME_PER_BUFFER := by
          simpa using hlen
        simp [handleMessage, hty, Nat.not_le.mpr hlen']
      rw [List.foldl_cons, hdrop]
      exact ih st (fun m' hm' => h m' (List.mem_cons_of_mem m hm'))
  · intro st m hty hlen
    have hlen' : FRAME_PER_BUFFER ≤ (List.map List.length m.audio).sum := by
      simpa using hlen
    simp [handleMessage, hty, hlen']

/-- C6 counterexample: a 600-sample audio event (below the 1024-sample
minimum) leaves the clean handler state entirely unchanged even though the
VAD stub would report voice; repeating it changes nothing either — the 600
samples are lost and can contribute to no later classified batch, refuting
"samples arriving in events smaller than the minimum batch size are not
lost". -/
theorem handleMessage_small_audio_lost_counterexample :
    audioSmall.audio.flatten.length = 600 ∧
    handleMessage vadVoice stClean audioSmall = stClean ∧
    handleMessage vadVoice (handleMessage vadVoice stClean audioSmall) audioSmall
      = stClean := by
  have h : handleMessage vadVoice stClean audioSmall = stClean := by
    have hlen' : (List.map List.length audioSmall.audio).sum < FRAME_PER_BUFFER := by
      norm_num [audioSmall, FRAME_PER_BUFFER]
    have hty : audioSmall.type = "audio" := rfl
    simp [handleMessage, hty, Nat.not_le.mpr hlen']
  refine ⟨by norm_num [audioSmall], h, by rw [h, h]⟩

/-- C6 witness: the amended theorem applied to two consecutive sub-threshold
events and to one 1024-sample event. -/
theorem handleMessage_audio_event_threshold_witness :
    [audioSmall, audioSmall].foldl (handleMessage vadVoice) stClean = stClean ∧
    handleMessage vadVoice stClean ⟨"audio", "", "", none, [batchPause]⟩
      = audioStep stClean batchPause (vadVoice batchPause) := by
  obtain ⟨h1, h2⟩ := handleMessage_audio_event_threshold vadVoice
  constructor
  · exact h1 stClean [audioSmall, audioSmall]
      (by
        intro m hm
        have hmm : m = audioSmall ∨ m = audioSmall := by simpa using hm
        rcases hmm with rfl | rfl <;>
          exact ⟨rfl, by norm_num [audioSmall, FRAME_PER_BUFFER]⟩)
  · have := h2 stClean ⟨"audio", "", "", none, [batchPause]⟩ rfl
      (by norm_num [batchPause, FRAME_PER_BUFFER])
    simpa using this

/-! ## C5 — serial task queue -/

theorem qrun_cons (s : QState) (a : QAct) (rest : List QAct) :
    qrun s (a :: rest)
      = ((qrun (qstep s a).1 rest).1, (qstep s a).2 ++ (qrun (qstep s a).1 rest).2) := rfl

theorem enqsOf_append (l1 l2 : List QEv) : enqsOf (l1 ++ l2) = enqsOf l1 ++ enqsOf l2 := by
  simp [enqsOf, List.filterMap_append]

theorem startsOf_append (l1 l2 : List QEv) :
    startsOf (l1 ++ l2) = startsOf l1 ++ startsOf l2 := by
  simp [startsOf, List.filterMap_append]

theorem qstep_queue_eq (s : QState) (a : QAct) :
    s.queue ++ enqsOf (qstep s a).2 = startsOf (qstep s a).2 ++ (qstep s a).1.queue := by
  cases a with
  | enq id =>
    by_cases hp : s.isProcessing
    · simp [qstep, hp, enqsOf, startsOf]
    · rcases hq : s.queue ++ [id] with _ | ⟨t, tl⟩
      · simp at hq
      · rw [show qstep s (QAct.enq id) = (⟨tl, true, some t⟩, [QEv.enqueued id, QEv.started t])
          from by simp [qstep, hp, hq]]
        simpa [enqsOf, startsOf] using hq
  | complete ok =>
    rcases hc : s.current with _ | t
    · simp [qstep, hc, enqsOf, startsOf]
    · rcases hq : s.queue with _ | ⟨n, tl⟩
      · simp [qstep, hc, hq, enqsOf, startsOf]
      · simp [qstep, hc, hq, enqsOf, startsOf]

theorem qrun_queue_eq (acts : List QAct) :
    ∀ s : QState, s.queue ++ enqsOf (qrun s acts).2
      = startsOf (qrun s acts).2 ++ (qrun s acts).1.queue := by
  induction acts with
  | nil => intro s; simp [qrun, enqsOf, startsOf]
  | cons a rest ih =>
    intro s
    rw [qrun_cons]
    rw [enqsOf_append, startsOf_append, ← List.append_assoc, qstep_queue_eq s a,
      List.append_assoc, ih (qstep s a).1, ← List.append_assoc]

theorem qrun_serialOk (acts : List QAct) :
    ∀ s : QState, (s.isProcessing = false → s.current = none) →
      serialOk (curNat s) (qrun s acts).2 = true ∧
      ((qrun s acts).1.isProcessing = false → (qrun s acts).1.current = none) := by
  induction acts with
  | nil => intro s hinv; exact ⟨rfl, hinv⟩
  | cons a rest ih =>
    intro s hinv
    rw [qrun_cons]
    cases a with
    | enq id =>
      by_cases hp : s.isProcessing
      · rw [show qstep s (QAct.enq id) = ({ s with queue := s.queue ++ [id] }, [QEv.enqueued id])
          from by simp [qstep, hp]]
        have ihs := ih { s with queue := s.queue ++ [id] } (by intro h; exact hinv h)
        exact ⟨by simpa [serialOk, curNat] using ihs.1, ihs.2⟩
      · have hz : curNat s = 0 := by
          simp [curNat, hinv (by simpa using hp)]
        rcases hq : s.queue ++ [id] with _ | ⟨t, tl⟩
        · simp at hq
        · rw [show qstep s (QAct.enq id) = (⟨tl, true, some t⟩, [QEv.enqueued id, QEv.started t])
            from by simp [qstep, hp, hq]]
          have ihs := ih ⟨tl, true, some t⟩ (by intro h; simp at h)
          refine ⟨?_, ihs.2⟩
          have h1 : curNat (⟨tl, true, some t⟩ : QState) = 1 := by simp [curNat]
          simp only [List.cons_append, List.nil_append, serialOk, hz]
          simpa [h1] using ihs.1
    | complete ok =>
      rcases hc : s.current with _ | t
      · rw [show qstep s (QAct.complete ok) = (s, []) from by simp [qstep, hc]]
        have ihs := ih s hinv
        exact ⟨by simpa using ihs.1, ihs.2⟩
      · have hone : curNat s = 1 := by simp [curNat, hc]
        rcases hq : s.queue with _ | ⟨n, tl⟩
        · rw [show qstep s (QAct.complete ok) = (⟨[], false, none⟩, [QEv.finished t ok])
            from by simp [qstep, hc, hq]]
          have ihs := ih ⟨[], false, none⟩ (by intro _; rfl)
          refine ⟨?_, ihs.2⟩
          simp only [List.cons_append, List.nil_append, serialOk, hone]
          simpa [curNat] using ihs.1
        · have hproc : s.isProcessing = true := by
            by_contra h
            have h2 := hinv (by simpa using h)
            rw [hc] at h2
            exact Option.noConfusion h2
          rw [show qstep s (QAct.complete ok)
              = (⟨tl, s.isProcessing, some n⟩, [QEv.finished t ok, QEv.started n])
            from by simp [qstep, hc, hq]]
          have ihs := ih ⟨tl, s.isProcessing, some n⟩ (by intro h; rw [hproc] at h; simp at h)
          refine ⟨?_, ihs.2⟩
          have h1 : curNat (⟨tl, s.isProcessing, some n⟩ : QState) = 1 := by simp [curNat]
          simp only [List.cons_append, List.nil_append, serialOk, hone]
          simpa [h1] using ihs.1

theorem qrun_forceOk (acts : List QAct) :
    ∀ s : QState, (qrun s (acts.map forceOk)).1 = (qrun s acts).1 ∧
      startsOf (qrun s (acts.map forceOk)).2 = startsOf (qrun s acts).2 := by
  induction acts with
  | nil => intro s; exact ⟨rfl, rfl⟩
  | cons a rest ih =>
    intro s
    have hstate : (qstep s (forceOk a)).1 = (qstep s a).1 := by
      cases a with
      | enq id => rfl
      | complete ok =>
        rcases hc : s.current with _ | t
        · simp [qstep, forceOk, hc]
        · rcases hq : s.queue with _ | ⟨n, tl⟩ <;> simp [qstep, forceOk, hc, hq]
    have hstarts : startsOf (qstep s (forceOk a)).2 = startsOf (qstep s a).2 := by
      cases a with
      | enq id => rfl
      | complete ok =>
        rcases hc : s.current with _ | t
        · simp [qstep, forceOk, hc]
        · rcases hq : s.queue with _ | ⟨n, tl⟩ <;> simp [qstep, forceOk, hc, hq, startsOf]
    have ihs := ih (qstep s a).1
    rw [List.map_cons, qrun_cons, qrun_cons, hstate]
    exact ⟨ihs.1, by rw [startsOf_append, startsOf_append, hstarts, ihs.2]⟩

/-- C5: for every sequence of external stimuli on one connection's queue,
(1) the started tasks form a prefix of the enqueued tasks in identical
order; (2) the event trace is a serial schedule — a task starts only when
none is in progress and each settles before the next starts, so at most one
task executes at any instant; (3) once the pending queue is drained, every
enqueued task has been started; and (4) replacing any task failures by
successes changes neither the final queue state nor which tasks start —
a throwing task is caught and never prevents a later-enqueued task from
running. -/
theorem queue_serial_fifo (acts : List QAct) :
    startsOf (qrun qinit acts).2 <+: enqsOf (qrun qinit acts).2 ∧
    serialOk 0 (qrun qinit acts).2 = true ∧
    ((qrun qinit acts).1.queue = [] →
      startsOf (qrun qinit acts).2 = enqsOf (qrun qinit acts).2) ∧
    (qrun qinit (acts.map forceOk)).1 = (qrun qinit acts).1 ∧
    startsOf (qrun qinit (acts.map forceOk)).2 = startsOf (qrun qinit acts).2 := by
  have hq := qrun_queue_eq acts qinit
  rw [show qinit.queue = [] from rfl, List.nil_append] at hq
  refine ⟨⟨(qrun qinit acts).1.queue, hq.symm⟩, ?_, ?_, ?_, ?_⟩
  · have h := (qrun_serialOk acts qinit (by intro _; rfl)).1
    simpa [curNat, qinit] using h
  · intro hnil
    rw [hq, hnil, List.append_nil]
  · exact (qrun_forceOk acts qinit).1
  · exact (qrun_forceOk acts qinit).2

/-- C5 witness: enqueue tasks 1 and 2, let task 1 fail and task 2 succeed:
both start, in order, and the trace is serial. -/
theorem queue_serial_fifo_witness :
    startsOf (qrun qinit [QAct.enq 1, QAct.enq 2, QAct.complete false, QAct.complete true]).2
      = enqsOf (qrun qinit [QAct.enq 1, QAct.enq 2, QAct.complete false, QAct.complete true]).2 ∧
    serialOk 0 (qrun qinit [QAct.enq 1, QAct.enq 2, QAct.complete false, QAct.complete true]).2
      = true := by
  obtain ⟨-, h2, h3, -, -⟩ :=
    queue_serial_fifo [QAct.enq 1, QAct.enq 2, QAct.complete false, QAct.complete true]
  exact ⟨h3 rfl, h2⟩

/-! ## C7 — one segment per utterance, normalized -/

theorem joinBatches_nil : joinBatches [] = [] := rfl

theorem joinBatches_cons (x : List ℚ × Int) (xs : List (List ℚ × Int)) :
    joinBatches (x :: xs) = x.1 ++ joinBatches xs := by
  simp [joinBatches]

theorem feedAll_cons (st : HandlerState) (x : List ℚ × Int) (xs : List (List ℚ × Int)) :
    feedAll st (x :: xs) = feedAll (audioStep st x.1 x.2) xs := rfl

theorem feedAll_append (st : HandlerState) (xs ys : List (List ℚ × Int)) :
    feedAll st (xs ++ ys) = feedAll (feedAll st xs) ys := by
  simp [feedAll, List.foldl_append]

theorem audioStep_capturing_voiced (st : HandlerState) (data : List ℚ) (v : Int)
    (hcap : st.isCapturingSpeech = true) (hv : ¬ v = -1) :
    audioStep st data v
      = { st with pauseDuration := 0, speechBuffer := st.speechBuffer ++ data } := by
  simp [audioStep, hcap, hv]

theorem audioStep_idle_voiced (st : HandlerState) (data : List ℚ) (v : Int)
    (hcap : st.isCapturingSpeech = false) (hv : ¬ v = -1) :
    audioStep st data v
      = { st with isCapturingSpeech := true, pauseDuration := 0,
                  speechBuffer := st.speechBuffer ++ data } := by
  simp [audioStep, hcap, hv]

theorem audioStep_idle_novoice (st : HandlerState) (data : List ℚ)
    (hcap : st.isCapturingSpeech = false) :
    audioStep st data (-1) = st := by
  simp [audioStep, hcap]

theorem feedAll_idle_novoice (xs : List (List ℚ × Int)) :
    ∀ st : HandlerState, st.isCapturingSpeech = false → (∀ x ∈ xs, x.2 = -1) →
      feedAll st xs = st := by
  induction xs with
  | nil => intro st _ _; rfl
  | cons x tl ih =>
    intro st hcap hall
    rw [feedAll_cons, hall x (List.mem_cons_self x tl), audioStep_idle_novoice st x.1 hcap]
    exact ih st hcap (fun y hy => hall y (List.mem_cons_of_mem x hy))

theorem feedAll_voiced (vs : List (List ℚ × Int)) :
    ∀ (B : List ℚ) (q : List QTask), (∀ x ∈ vs, ¬ x.2 = -1) →
      feedAll ⟨0, true, B, q⟩ vs = ⟨0, true, B ++ joinBatches vs, q⟩ := by
  induction vs with
  | nil => intro B q _; simp [feedAll, joinBatches]
  | cons x xs ih =>
    intro B q h
    rw [feedAll_cons,
      audioStep_capturing_voiced ⟨0, true, B, q⟩ x.1 x.2 rfl (h x (List.mem_cons_self x xs))]
    have h2 := ih (B ++ x.1) q (fun y hy => h y (List.mem_cons_of_mem x hy))
    simpa [joinBatches_cons, List.append_assoc] using h2

theorem durQ_add (b c : ℚ) :
    (b + c) * 2000 / INPUT_SAMPLE_RATE
      = b * 2000 / INPUT_SAMPLE_RATE + c * 2000 / INPUT_SAMPLE_RATE := by
  simp only [INPUT_SAMPLE_RATE]
  ring

theorem durQ_mono (b c : ℚ) (hc : 0 ≤ c) :
    b * 2000 / INPUT_SAMPLE_RATE ≤ (b + c) * 2000 / INPUT_SAMPLE_RATE := by
  simp only [INPUT_SAMPLE_RATE]
  linarith

theorem feedAll_pause (ps : List (List ℚ × Int)) :
    ∀ (B : List ℚ) (a : ℚ) (q : List QTask),
      (∀ x ∈ ps, x.2 = -1) →
      MIN_SPEECH_DURATION_MS < (B.length : ℚ) * 2000 / INPUT_SAMPLE_RATE →
      a ≤ PAUSE_DURATION_THRESHOLD_MS →
      PAUSE_DURATION_THRESHOLD_MS < a + ((joinBatches ps).length : ℚ) * 2000 / INPUT_SAMPLE_RATE →
      ∃ k, 1 ≤ k ∧ k ≤ ps.length ∧
        feedAll ⟨a, true, B, q⟩ ps
          = ⟨a + ((joinBatches (ps.take k)).length : ℚ) * 2000 / INPUT_SAMPLE_RATE, false, [],
             q ++ [QTask.audioTask (normalizeAudio (B ++ joinBatches (ps.take k)))]⟩ := by
  induction ps with
  | nil =>
    intro B a q _ _ hle hgt
    exfalso
    rw [joinBatches_nil] at hgt
    simp at hgt
    exact absurd hgt (not_lt.mpr hle)
  | cons x xs ih =>
    intro B a q hall hB hle hgt
    have hx : x.2 = -1 := hall x (List.mem_cons_self x xs)
    have hrest : ∀ y ∈ xs, y.2 = -1 := fun y hy => hall y (List.mem_cons_of_mem x hy)
    have hB' : MIN_SPEECH_DURATION_MS < (((B ++ x.1).length : ℚ)) * 2000 / INPUT_SAMPLE_RATE := by
      simp only [List.length_append, Nat.cast_add]
      exact lt_of_lt_of_le hB (durQ_mono _ _ (by positivity))
    by_cases hcross : PAUSE_DURATION_THRESHOLD_MS
        < a + (x.1.length : ℚ) * 2000 / INPUT_SAMPLE_RATE
    · have hdur' : MIN_SPEECH_DURATION_MS
          < ((B.length : ℚ) + (x.1.length : ℚ)) * 2000 / INPUT_SAMPLE_RATE := by
        have h2 := hB'
        simpa using h2
      have step : audioStep ⟨a, true, B, q⟩ x.1 (-1)
          = ⟨a + (x.1.length : ℚ) * 2000 / INPUT_SAMPLE_RATE, false, [],
             q ++ [QTask.audioTask (normalizeAudio (B ++ x.1))]⟩ := by
        simp [audioStep, hcross, hdur']
      refine ⟨1, le_refl 1, by simp, ?_⟩
      rw [feedAll_cons, hx, step,
        feedAll_idle_novoice xs
          ⟨a + (x.1.length : ℚ) * 2000 / INPUT_SAMPLE_RATE, false, [],
           q ++ [QTask.audioTask (normalizeAudio (B ++ x.1))]⟩ rfl hrest]
      simp [joinBatches]
    · have hpb_le : a + (x.1.length : ℚ) * 2000 / INPUT_SAMPLE_RATE
          ≤ PAUSE_DURATION_THRESHOLD_MS := not_lt.mp hcross
      have hgt' : PAUSE_DURATION_THRESHOLD_MS
          < (a + (x.1.length : ℚ) * 2000 / INPUT_SAMPLE_RATE)
            + ((joinBatches xs).length : ℚ) * 2000 / INPUT_SAMPLE_RATE := by
        rw [joinBatches_cons] at hgt
        simp only [List.length_append, Nat.cast_add] at hgt
        have hadd := durQ_add (x.1.length : ℚ) ((joinBatches xs).length : ℚ)
        linarith
      have step : audioStep ⟨a, true, B, q⟩ x.1 (-1)
          = ⟨a + (x.1.length : ℚ) * 2000 / INPUT_SAMPLE_RATE, true, B ++ x.1, q⟩ := by
        simp [audioStep, hcross]
      obtain ⟨k, hk1, hk2, heq⟩ :=
        ih (B ++ x.1) (a + (x.1.length : ℚ) * 2000 / INPUT_SAMPLE_RATE) q hrest hB' hpb_le hgt'
      refine ⟨k + 1, by omega, by simpa using Nat.succ_le_succ hk2, ?_⟩
      rw [feedAll_cons, hx, step, heq]
      simp only [HandlerState.mk.injEq]
      refine ⟨?_, trivial, trivial, ?_⟩
      · simp only [List.take_succ_cons, joinBatches_cons, List.length_append, Nat.cast_add]
        rw [durQ_add]
        ring
      · simp [List.take_succ_cons, joinBatches_cons, List.append_assoc]

theorem foldl_maxAbs_init_le (l : List ℚ) : ∀ c : ℚ, c ≤ l.foldl (fun m x => max m |x|) c := by
  induction l with
  | nil => intro c; exact le_refl c
  | cons y ys ih => intro c; exact le_trans (le_max_left c |y|) (ih (max c |y|))

theorem le_foldl_maxAbs_of_mem (l : List ℚ) :
    ∀ (c : ℚ) (x : ℚ), x ∈ l → |x| ≤ l.foldl (fun m x => max m |x|) c := by
  induction l with
  | nil => intro c x hx; cases hx
  | cons y ys ih =>
    intro c x hx
    rcases List.mem_cons.mp hx with rfl | hmem
    · exact le_trans (le_max_right c |x|) (foldl_maxAbs_init_le ys (max c |x|))
    · exact ih (max c |y|) x hmem

theorem maxAbsVal_nonneg (l : List ℚ) : 0 ≤ maxAbsVal l := foldl_maxAbs_init_le l 0

theorem le_maxAbsVal_of_mem {l : List ℚ} {x : ℚ} (hx : x ∈ l) : |x| ≤ maxAbsVal l :=
  le_foldl_maxAbs_of_mem l 0 x hx

theorem maxAbsVal_pos (l : List ℚ) (h : ∃ x ∈ l, ¬ x = 0) : 0 < maxAbsVal l := by
  obtain ⟨x, hx, hxne⟩ := h
  exact lt_of_lt_of_le (abs_pos.mpr hxne) (le_maxAbsVal_of_mem hx)

theorem foldl_maxAbs_map_div (l : List ℚ) (M : ℚ) (hM : 0 < M) :
    ∀ c : ℚ, (l.map (fun x => x / M)).foldl (fun m x => max m |x|) (c / M)
      = (l.foldl (fun m x => max m |x|) c) / M := by
  induction l with
  | nil => intro c; rfl
  | cons y ys ih =>
    intro c
    have habs : |y / M| = |y| / M := by
      rw [abs_div, abs_of_pos hM]
    have hmax : max (c / M) (|y| / M) = max c |y| / M := max_div_div_right hM.le c |y|
    simp only [List.map_cons, List.foldl_cons, habs, hmax]
    exact ih (max c |y|)

theorem maxAbsVal_map_div (l : List ℚ) (M : ℚ) (hM : 0 < M) :
    maxAbsVal (l.map (fun x => x / M)) = maxAbsVal l / M := by
  have h := foldl_maxAbs_map_div l M hM 0
  rw [zero_div] at h
  exact h

theorem normalizeAudio_length (l : List ℚ) : (normalizeAudio l).length = l.length := by
  by_cases h : maxAbsVal l = 0 <;> simp [normalizeAudio, h]

theorem normalizeAudio_peak (l : List ℚ) (h : ∃ x ∈ l, ¬ x = 0) :
    maxAbsVal (normalizeAudio l) = 1 := by
  have hpos := maxAbsVal_pos l h
  simp only [normalizeAudio, if_neg (ne_of_gt hpos)]
  rw [maxAbsVal_map_div l (maxAbsVal l) hpos, div_self (ne_of_gt hpos)]

/-- C7: starting from Idle with an empty buffer, feeding voice-present
batches of total duration above the minimum speech duration and then
no-voice batches whose accumulated pause exceeds the threshold emits
exactly one segment: the queue grows by exactly one audio task, whose
segment is the normalization of every sample buffered while Capturing (the
voiced batches plus the pause batches up to the one that crossed the
threshold — `k` marks that batch); its sample count equals the sum of all
buffered batches, and, provided some buffered sample is non-zero, its peak
absolute amplitude is exactly 1. -/
theorem audio_segmenter_emits_one_segment (q : List QTask) (p0 : ℚ)
    (vs ps : List (List ℚ × Int))
    (hv : ∀ x ∈ vs, ¬ x.2 = -1) (hp : ∀ x ∈ ps, x.2 = -1)
    (hdur : MIN_SPEECH_DURATION_MS
      < ((joinBatches vs).length : ℚ) * 2000 / INPUT_SAMPLE_RATE)
    (hpause : PAUSE_DURATION_THRESHOLD_MS
      < ((joinBatches ps).length : ℚ) * 2000 / INPUT_SAMPLE_RATE) :
    ∃ k, 1 ≤ k ∧ k ≤ ps.length ∧
      feedAll ⟨p0, false, [], q⟩ (vs ++ ps)
        = ⟨((joinBatches (ps.take k)).length : ℚ) * 2000 / INPUT_SAMPLE_RATE, false, [],
            q ++ [QTask.audioTask (normalizeAudio (joinBatches vs ++ joinBatches (ps.take k)))]⟩ ∧
      (normalizeAudio (joinBatches vs ++ joinBatches (ps.take k))).length
        = (joinBatches vs).length + (joinBatches (ps.take k)).length ∧
      ((∃ x ∈ joinBatches vs ++ joinBatches (ps.take k), ¬ x = 0) →
        maxAbsVal (normalizeAudio (joinBatches vs ++ joinBatches (ps.take k))) = 1) := by
  rcases vs with _ | ⟨v, vt⟩
  · exfalso
    rw [joinBatches_nil] at hdur
    norm_num [MIN_SPEECH_DURATION_MS, INPUT_SAMPLE_RATE] at hdur
  · have hv0 : ¬ v.2 = -1 := hv v (List.mem_cons_self v vt)
    have step1 : audioStep ⟨p0, false, [], q⟩ v.1 v.2 = ⟨0, true, v.1, q⟩ := by
      rw [audioStep_idle_voiced ⟨p0, false, [], q⟩ v.1 v.2 rfl hv0]
      simp
    have phase1 : feedAll ⟨p0, false, [], q⟩ (v :: vt)
        = ⟨0, true, joinBatches (v :: vt), q⟩ := by
      rw [feedAll_cons, step1,
        feedAll_voiced vt v.1 q (fun y hy => hv y (List.mem_cons_of_mem v hy)),
        ← joinBatches_cons]
    have hgt0 : PAUSE_DURATION_THRESHOLD_MS
        < 0 + ((joinBatches ps).length : ℚ) * 2000 / INPUT_SAMPLE_RATE := by
      simpa using hpause
    obtain ⟨k, hk1, hk2, heq⟩ := feedAll_pause ps (joinBatches (v :: vt)) 0 q hp hdur
      (by norm_num [PAUSE_DURATION_THRESHOLD_MS]) hgt0
    refine ⟨k, hk1, hk2, ?_, ?_, fun hex => normalizeAudio_peak _ hex⟩
    · rw [feedAll_append, phase1, heq]
      simp
    · rw [normalizeAudio_length, List.length_append]

/-- C7 witness: one 1601-sample voiced batch (200.125 ms) followed by one
5201-sample silent batch (650.125 ms of pause) emits exactly one normalized
segment. -/
theorem audio_segmenter_emits_one_segment_witness :
    ∃ k, 1 ≤ k ∧ k ≤ psWitness.length ∧
      feedAll ⟨0, false, [], []⟩ (vsWitness ++ psWitness)
        = ⟨((joinBatches (psWitness.take k)).length : ℚ) * 2000 / INPUT_SAMPLE_RATE, false, [],
            [QTask.audioTask
              (normalizeAudio (joinBatches vsWitness ++ joinBatches (psWitness.take k)))]⟩ ∧
      (normalizeAudio (joinBatches vsWitness ++ joinBatches (psWitness.take k))).length
        = (joinBatches vsWitness).length + (joinBatches (psWitness.take k)).length ∧
      ((∃ x ∈ joinBatches vsWitness ++ joinBatches (psWitness.take k), ¬ x = 0) →
        maxAbsVal (normalizeAudio (joinBatches vsWitness ++ joinBatches (psWitness.take k)))
          = 1) :=
  audio_segmenter_emits_one_segment [] 0 vsWitness psWitness
    (by
      intro x hx
      rw [List.mem_singleton.mp hx]
      decide)
    (by
      intro x hx
      rw [List.mem_singleton.mp hx])
    (by
      have h1 : (joinBatches vsWitness).length = 1601 := by
        rw [show joinBatches vsWitness = List.replicate 1601 (1:ℚ) ++ [] from rfl,
          List.append_nil, List.length_replicate]
      rw [h1]
      norm_num [MIN_SPEECH_DURATION_MS, INPUT_SAMPLE_RATE])
    (by
      have h1 : (joinBatches psWitness).length = 5201 := by
        rw [show joinBatches psWitness = List.replicate 5201 (0:ℚ) ++ [] from rfl,
          List.append_nil, List.length_replicate]
      rw [h1]
      norm_num [PAUSE_DURATION_THRESHOLD_MS, INPUT_SAMPLE_RATE])
